import Mathlib

/-!
Verification development for the mouse-trajectory experiment
(`5_DAS/mouse_experiment.py`).

The Python source is shallowly embedded: float times and coordinates become
`ℚ`, integer quantities become `ℤ`/`ℕ`, pandas dataframes become lists of
structure rows, and code that raises becomes `Option`/`Except` returning
functions.  Every definition follows the corresponding Python function; the
line references in the doc comments point into `mouse_experiment.py`.
-/

namespace MouseExp

/-- One row of a recorded path dataframe: columns `trial, t, x, y`
(`mouse_list` entries and `paths.csv` rows). -/
structure SampleRow where
  trial : ℤ
  t : ℚ
  x : ℚ
  y : ℚ
deriving DecidableEq, Repr

/-- `np.min` over a column (the source only applies it to nonempty columns). -/
def seriesMin (l : List ℚ) : ℚ :=
  match l with
  | [] => 0
  | a :: r => r.foldl min a

/-- `np.max` over a column (the source only applies it to nonempty columns). -/
def seriesMax (l : List ℚ) : ℚ :=
  match l with
  | [] => 0
  | a :: r => r.foldl max a

/-- `np.searchsorted(xs, q)` with the default side `left` on a sorted array:
the number of entries strictly below `q`. -/
def searchsorted (xs : List ℚ) (q : ℚ) : ℕ :=
  xs.countP (fun a => decide (a < q))

/-- One evaluation of a `scipy.interpolate.interp1d(..., kind=linear)`
interpolant built over the points `pts` (already sorted by first component):
clip the insertion index of `q` to `[1, len - 1]`, take the bracketing pair
`p0, p1`, and evaluate the segment line `slope * (q - p0.1) + p0.2`.
A degenerate pair (equal abscissae) divides by zero; `ℚ` division by zero
yields `0`, standing in for the `nan` that float division produces — scipy
raises no error in that case. -/
def interpValue (pts : List (ℚ × ℚ)) (q : ℚ) : ℚ :=
  let i := min (max (searchsorted (pts.map Prod.fst) q) 1) (pts.length - 1)
  let p0 := pts.getD (i - 1) (0, 0)
  let p1 := pts.getD i (0, 0)
  let slope := (p1.2 - p0.2) / (p1.1 - p0.1)
  slope * (q - p0.1) + p0.2

/-- `Experiment.interpolate` (lines 772-794).  `interp1d` raises `ValueError`
when given fewer than 2 sample points (modelled by `none`), sorts the sample
points by time (`assume_sorted` defaults to `False`; modelled by a stable
insertion sort, matching the source where times are non-decreasing), and with
the default `bounds_error=True` raises when a query time lies outside the
sampled range (the second `none`).  `new_t` is
`range(math.ceil(np.min(t)*1000), math.ceil(np.max(t)*1000))` and
`new_t_old = [0.001 * s for s in new_t]`. -/
def interpolate (trial : ℤ) (df : List SampleRow) : Option (List SampleRow) :=
  let t := df.map (·.t)
  if df.length < 2 then none
  else
    let dfs := List.insertionSort (fun a b : SampleRow => a.t ≤ b.t) df
    let ptsX := dfs.map (fun r => (r.t, r.x))
    let ptsY := dfs.map (fun r => (r.t, r.y))
    let lo : ℤ := ⌈seriesMin t * 1000⌉
    let hi : ℤ := ⌈seriesMax t * 1000⌉
    let new_t : List ℤ := (List.range (hi - lo).toNat).map (fun (i : ℕ) => lo + (i : ℤ))
    let new_t_old : List ℚ := new_t.map (fun (s : ℤ) => (0.001 : ℚ) * (s : ℚ))
    if new_t_old.all (fun q => decide (seriesMin t ≤ q ∧ q ≤ seriesMax t)) then
      some (new_t_old.map (fun q => ⟨trial, q, interpValue ptsX q, interpValue ptsY q⟩))
    else none

/-- The grid of whole milliseconds (divided by 1000) in the half-open interval
`[ceil(min*1000), ceil(max*1000))` over a time column. -/
def msGrid (ts : List ℚ) : List ℚ :=
  (List.range (⌈seriesMax ts * 1000⌉ - ⌈seriesMin ts * 1000⌉).toNat).map
    (fun (i : ℕ) => (0.001 : ℚ) * ((⌈seriesMin ts * 1000⌉ + (i : ℤ) : ℤ) : ℚ))

/-- `a` and `b` occur as consecutive entries of `df`. -/
def ConsecPair (df : List SampleRow) (a b : SampleRow) : Prop :=
  ∃ i : ℕ, df.get? i = some a ∧ df.get? (i + 1) = some b

/-- Spec-side description of piecewise-linear interpolation: the value pair
`(vx, vy)` at time `q` lies on the segment between two consecutive samples of
`df` that bracket `q`, with x and y interpolated against time independently. -/
def OnSegment (df : List SampleRow) (q vx vy : ℚ) : Prop :=
  ∃ a b, ConsecPair df a b ∧ a.t ≤ q ∧ q ≤ b.t ∧
    vx = a.x + (b.x - a.x) * (q - a.t) / (b.t - a.t) ∧
    vy = a.y + (b.y - a.y) * (q - a.t) / (b.t - a.t)

/-! ## Trial History Store and Session Aggregator -/

/-- One row of the trial-properties dataframe (`paths_props.csv`).  The three
`Option` fields model the columns that are absent in older persisted data
(`extract_user_settings`, lines 217-222, only reads them when the column
exists). -/
structure PropsRow where
  trial : ℤ
  trial_for_input_method : ℤ
  input_method : ℤ
  use_tue_laptop : ℤ
  mouse_speed : ℤ
  mouse_accuracy : ℤ
  right_handed : ℤ
  major : String
  gender : ℤ
  right_trackpad_handed : Option ℤ
  right_mouse_handed : Option ℤ
  trackpad_speed_set : Option ℤ
deriving DecidableEq, Repr

/-- Convenience constructor for rows in which only the trial number and the
input method matter. -/
def mkPropsRow (trial input_method : ℤ) : PropsRow :=
  ⟨trial, 0, input_method, 0, 0, 0, 0, "", 0, none, none, none⟩

/-- `pandas.Series.nlargest(k)`: the `k` largest values, in descending order
(ties broken by position). -/
def nlargest (k : ℕ) (l : List ℤ) : List ℤ :=
  (List.insertionSort (fun a b : ℤ => b ≤ a) l).take k

/-- The `trial` column of the rows whose `input_method` equals `m`
(`df_trial_props[df_trial_props[input_method] == m][trial]`). -/
def methodTrials (props : List PropsRow) (m : ℤ) : List ℤ :=
  (props.filter (fun r => decide (r.input_method = m))).map (·.trial)

/-- The row filtering of `MouseExperiment.start` (lines 149-165) applied to
the properties dataframe: keep the rows whose trial number is among the
`max_nr_paths` largest mouse trial numbers or the `max_nr_paths` largest
trackpad trial numbers. -/
def aggregateProps (k : ℕ) (props : List PropsRow) : List PropsRow :=
  let mouse_trials := nlargest k (methodTrials props 1)
  let trackpad_trials := nlargest k (methodTrials props 0)
  props.filter (fun r => decide (r.trial ∈ mouse_trials ∨ r.trial ∈ trackpad_trials))

/-- The same row filtering applied to the paths dataframe
(`df[df[trial].isin(mouse_trials) | df[trial].isin(trackpad_trials)]`). -/
def aggregatePaths (k : ℕ) (props : List PropsRow) (paths : List SampleRow) :
    List SampleRow :=
  let mouse_trials := nlargest k (methodTrials props 1)
  let trackpad_trials := nlargest k (methodTrials props 0)
  paths.filter (fun r => decide (r.trial ∈ mouse_trials ∨ r.trial ∈ trackpad_trials))

/-- `ExperimentSettings` (lines 351-355). -/
structure ExperimentSettings where
  max_nr_paths : ℕ
  max_training_nr : ℤ
deriving DecidableEq, Repr

/-- `CollectionStatus` (lines 383-394), with the constructor field order of
the source. -/
structure CollectionStatus where
  nr_mouse_trials_collected : ℕ
  nr_trackpad_trials_collected : ℕ
  last_trackpad_trial_nr : ℤ
  last_mouse_trial_nr : ℤ
  last_trial_nr : ℤ
deriving DecidableEq, Repr

/-- Outcome of trying to read a persisted csv file: the file may be absent,
may fail to parse, or may parse to a dataframe. -/
inductive FileRead (α : Type) where
  | absent : FileRead α
  | unreadable : FileRead α
  | ok (df : α) : FileRead α
deriving DecidableEq, Repr

/-- `read_old_properties` (lines 193-205): returns a success flag and the
dataframe; a missing file or a parse exception yields `(False, None)`
non-fatally (the exception is caught and logged). -/
def read_old_properties (f : FileRead (List PropsRow)) :
    Bool × Option (List PropsRow) :=
  match f with
  | .ok df => (true, some df)
  | _ => (false, none)

/-- The user-settings snapshot assembled by `extract_user_settings`
(lines 207-224) from the last row of the old properties dataframe. -/
structure UserSnap where
  use_tue_laptop : ℤ
  mouse_speed : ℤ
  mouse_accuracy : ℤ
  right_handed : ℤ
  input_method : ℤ
  major : String
  gender : ℤ
  right_trackpad_handed : Option ℤ
  right_mouse_handed : Option ℤ
  trackpad_speed_set : Option ℤ
deriving DecidableEq, Repr

/-- `extract_user_settings` (lines 207-224): read the settings columns of the
last row (`iloc[-1]`); the three legacy columns are included only when
present.  The source only calls this on a parsed, nonempty dataframe. -/
def extract_user_settings (df_props_old : List PropsRow) : Option UserSnap :=
  match df_props_old.getLast? with
  | none => none
  | some r =>
      some ⟨r.use_tue_laptop, r.mouse_speed, r.mouse_accuracy, r.right_handed,
            r.input_method, r.major, r.gender,
            r.right_trackpad_handed, r.right_mouse_handed, r.trackpad_speed_set⟩

/-- `df[col].max()` over an integer column.  Pandas `max` of an empty column
is `nan` (and `int(nan)` raises); the source only takes the max of columns of
a successfully parsed history, and the theorems below add nonemptiness where
it matters. -/
def seriesMaxZ (l : List ℤ) : ℤ :=
  match l with
  | [] => 0
  | a :: r => r.foldl max a

/-- The startup values computed by the prefix of `MouseExperiment.start`
(lines 57-118) before the event loop runs. -/
structure StartInit where
  has_earlier_props : Bool
  has_earlier_paths : Bool
  user_settings : Option UserSnap
  collection_status : CollectionStatus
deriving DecidableEq, Repr

/-- The prefix of `MouseExperiment.start` (lines 57-118): read the old
properties and paths files, reconstruct the last trial numbers and the
per-input-method collected counts.  The per-input-method block runs only when
both files were read successfully. -/
def startInit (settings : ExperimentSettings)
    (propsFile : FileRead (List PropsRow)) (pathsFile : FileRead (List SampleRow)) :
    StartInit :=
  let hp := (read_old_properties propsFile).1
  let df_props_old := ((read_old_properties propsFile).2).getD []
  let has_earlier_paths := match pathsFile with | .ok _ => true | _ => false
  let last_trial_nr : ℤ :=
    if hp then seriesMaxZ (df_props_old.map (·.trial)) else -1
  let user_settings := if hp then extract_user_settings df_props_old else none
  let nr_mouse_trials_collected : ℕ :=
    if hp && has_earlier_paths then
      (nlargest settings.max_nr_paths (methodTrials df_props_old 1)).countP
        (fun tr => decide (settings.max_training_nr ≤ tr))
    else 0
  let nr_trackpad_trials_collected : ℕ :=
    if hp && has_earlier_paths then
      (nlargest settings.max_nr_paths (methodTrials df_props_old 0)).countP
        (fun tr => decide (settings.max_training_nr ≤ tr))
    else 0
  let last_mouse_trial_nr : ℤ :=
    if hp && has_earlier_paths &&
        decide (0 < (df_props_old.countP (fun r => decide (r.input_method = 1)))) then
      seriesMaxZ ((df_props_old.filter (fun r => decide (r.input_method = 1))).map
        (·.trial_for_input_method))
    else -1
  let last_trackpad_trial_nr : ℤ :=
    if hp && has_earlier_paths &&
        decide (0 < (df_props_old.countP (fun r => decide (r.input_method = 0)))) then
      seriesMaxZ ((df_props_old.filter (fun r => decide (r.input_method = 0))).map
        (·.trial_for_input_method))
    else -1
  ⟨hp, has_earlier_paths, user_settings,
   ⟨nr_mouse_trials_collected, nr_trackpad_trials_collected,
    last_trackpad_trial_nr, last_mouse_trial_nr, last_trial_nr⟩⟩

/-- The persistence suffix of `MouseExperiment.start` (lines 127-175), given
the dataframes recorded during the session: concatenate the history in front
of the session data only when both history files were read (lines 144-147),
then apply the per-input-method retention filtering, producing the pair
`(paths.csv rows, paths_props.csv rows)` that is written out.  (The source
runs this only when the session recorded at least one trial.) -/
def persistOutputs (settings : ExperimentSettings)
    (propsFile : FileRead (List PropsRow)) (pathsFile : FileRead (List SampleRow))
    (session_paths : List SampleRow) (session_props : List PropsRow) :
    List SampleRow × List PropsRow :=
  let init := startInit settings propsFile pathsFile
  let df_props_old := ((read_old_properties propsFile).2).getD []
  let df_paths_old := match pathsFile with | .ok df => df | _ => []
  let merge := init.has_earlier_props && init.has_earlier_paths
  let df := if merge then df_paths_old ++ session_paths else session_paths
  let df_trial_props := if merge then df_props_old ++ session_props else session_props
  (aggregatePaths settings.max_nr_paths df_trial_props df,
   aggregateProps settings.max_nr_paths df_trial_props)

/-! ## Samplers -/

/-- The generator object returned by calling the generator function
`choice_sampler(choices)` (lines 334-337).  Calling a Python generator
function never runs its body, so construction always succeeds. -/
structure ChoiceSampler (α : Type) where
  choices : List α
deriving DecidableEq, Repr

/-- `choice_sampler(choices)` (lines 334-337): a generator function call,
which merely builds the generator without executing `random.choice`. -/
def choice_sampler (choices : List α) : Except String (ChoiceSampler α) :=
  .ok ⟨choices⟩

/-- One `next()` on the generator: `random.choice(choices)` with random index
`r`; on an empty sequence `random.choice` raises `IndexError`. -/
def ChoiceSampler.next (s : ChoiceSampler α) (r : ℕ) : Except String α :=
  match s.choices.get? (r % s.choices.length) with
  | some a => .ok a
  | none => .error "Cannot choose from an empty sequence"

/-- The generator object returned by `range_sampler(start, stop)`
(lines 345-349). -/
structure RangeSampler where
  start : ℤ
  stop : ℤ
deriving DecidableEq, Repr

/-- `range_sampler(start, stop)` (lines 345-349): again a bare generator
construction. -/
def range_sampler (a b : ℤ) : Except String RangeSampler :=
  .ok ⟨a, b⟩

/-- One `next()` on the generator: `random.randrange(start, stop)` with random
offset `r`; raises `ValueError` when the range is empty. -/
def RangeSampler.next (s : RangeSampler) (r : ℕ) : Except String ℤ :=
  if s.start < s.stop then .ok (s.start + (r : ℤ) % (s.stop - s.start))
  else .error "empty range for randrange"

/-! ## Trial Scheduler state machine

`Experiment` (lines 396-794) is driven by tkinter callbacks: `motion`
(pointer moves), `click` (button press) and the single-shot timer callback
`start_experiment` scheduled by `root.after`.  The embedding keeps the
Python instance attributes as state fields and delivers each callback as an
event carrying its environmental inputs (wall-clock reading, pointer
geometry, and the values drawn from the random samplers).  The timer is
modelled by `pending` (the scheduler's pending callback id, distinct from
the instance attribute `job`): `root.after` sets both to a fresh id,
`root.after_cancel(self.job)` clears `pending` when it still equals `job`
(cancelling an already-fired or cancelled id is a no-op), and a fire event
only runs the callback when `pending` is set.  Canvas text items other than
the instruction text (`text_id`) and all message boxes are pure display and
are not part of the state; the target polar draw
`round(r*cos(phi)), round(r*sin(phi))` is abstracted to the resulting
integer target offset carried by the fire event, since cos/sin of the
sampled angles are not rational. -/

/-- One properties row assembled by `Experiment.click` (lines 680-693).  The
user-settings and system-settings snapshot columns are omitted: they are
copies of environment records that are constant during a run. -/
structure TrialProps where
  trial : ℤ
  trial_for_input_method : ℤ
  target_x : ℤ
  target_y : ℤ
  target_radius : ℤ
  delay : ℚ
deriving DecidableEq, Repr

/-- Per-run configuration of `Experiment`: the input method from the user
settings, the experiment settings, and the canvas origin
(`x_origin = y_origin = window_size // 2`). -/
structure ExpConfig where
  input_method : ℤ
  max_nr_paths : ℕ
  max_training_nr : ℤ
  x_origin : ℤ
  y_origin : ℤ
deriving DecidableEq, Repr

/-- The mutable attributes of `Experiment`, plus the modelled timer state.
`trial_for_input_method_ctr` is the one per-input-method counter the source
keeps alive (`self.mouse_trial_nr` when `input_method == 1`, otherwise
`self.trackpad_trial_nr`; only the matching one is ever created and read). -/
structure ExpState where
  trial : ℤ
  trial_for_input_method_ctr : ℤ
  nr_mouse_trials_collected : ℕ
  nr_trackpad_trials_collected : ℕ
  job : Option ℕ
  pending : Option ℕ
  nextJobId : ℕ
  experiment_scheduled : Bool
  collect_data : Bool
  targetVisible : Bool
  target_x : ℤ
  target_y : ℤ
  target_radius : ℤ
  delay : ℚ
  schedule_time : ℚ
  start_time : ℚ
  mouse_list : List SampleRow
  list_with_dataframes : List (List SampleRow)
  interpolated_paths : List (Option (List SampleRow))
  prop_list : List TrialProps
  text : String
deriving DecidableEq, Repr

/-- `Experiment.__init__` (lines 398-493): initial attribute values, with the
trial counters continued from the collection status. -/
def initExp (cfg : ExpConfig) (status : CollectionStatus) (now : ℚ) : ExpState where
  trial := status.last_trial_nr + 1
  trial_for_input_method_ctr :=
    if cfg.input_method = 0 then status.last_trackpad_trial_nr + 1
    else status.last_mouse_trial_nr + 1
  nr_mouse_trials_collected := status.nr_mouse_trials_collected
  nr_trackpad_trials_collected := status.nr_trackpad_trials_collected
  job := none
  pending := none
  nextJobId := 0
  experiment_scheduled := false
  collect_data := false
  targetVisible := false
  target_x := 0
  target_y := 0
  target_radius := 3
  delay := 2000
  schedule_time := now
  start_time := now
  mouse_list := []
  list_with_dataframes := []
  interpolated_paths := []
  prop_list := []
  text := "Move your mouse to the red square"

/-- Events delivered by the tkinter loop.  `onCanvas` models
`w.find_withtag(CURRENT)` being nonempty, `onMiddle`/`onTarget` model the
hit item being the red square / the live blue dot.  `motion` carries the
window coordinates of the pointer and the value a `next` on the delay
sampler would produce; `fire` carries the target offset and radius the
samplers would produce and the current pointer position in window
coordinates. -/
inductive Ev where
  | motion (now : ℚ) (x_win y_win : ℤ) (onCanvas onMiddle : Bool) (delayDraw : ℕ)
  | click (now : ℚ) (x_win y_win : ℤ) (onCanvas onTarget : Bool)
  | fire (now : ℚ) (onMiddle : Bool) (tx ty radius px py : ℤ)
deriving DecidableEq, Repr

/-- `Experiment.start_experiment` (lines 504-573): the timer callback.  When
the pointer is no longer on the red square, only the instruction text is
updated and the method returns (neither `job` nor `experiment_scheduled` is
reset).  Otherwise the actual delay is recomputed from the wall clock, the
sample buffer is reset to the single sample `(trial, 0, x, y)` at the current
pointer position, the target is drawn and collection starts. -/
def start_experiment (cfg : ExpConfig) (now : ℚ) (onMiddle : Bool)
    (tx ty radius px py : ℤ) (s : ExpState) : ExpState :=
  if !onMiddle then
    { s with text := "Keep your mouse on the red square to start the experiment" }
  else
    { s with
      job := none
      delay := now - s.schedule_time
      collect_data := true
      text := if s.trial ≤ cfg.max_training_nr then "Click the blue dot!" else ""
      target_x := tx
      target_y := ty
      target_radius := radius
      targetVisible := true
      start_time := now
      mouse_list := [⟨s.trial, 0, ((px - cfg.x_origin : ℤ) : ℚ), ((cfg.y_origin - py : ℤ) : ℚ)⟩] }

/-- `Experiment.motion` (lines 575-642): arm a delayed trial when the pointer
is on the red square and none is scheduled; cancel the pending callback and
unarm when the pointer is off the square while `job` is set; append a sample
while collecting. -/
def motion (cfg : ExpConfig) (now : ℚ) (x_win y_win : ℤ)
    (onCanvas onMiddle : Bool) (delayDraw : ℕ) (s : ExpState) : ExpState :=
  let s1 :=
    if onCanvas && !s.experiment_scheduled && onMiddle then
      { s with
        delay := (delayDraw : ℚ)
        job := some s.nextJobId
        pending := some s.nextJobId
        nextJobId := s.nextJobId + 1
        experiment_scheduled := true
        schedule_time := now
        text :=
          if s.trial < cfg.max_training_nr then "Wait for blue dot to appear..."
          else if s.trial = cfg.max_training_nr then s.text
          else "" }
    else s
  let s2 :=
    if !onMiddle && s1.job.isSome then
      { s1 with
        text := "Keep your mouse on the red square to start the experiment"
        pending := if s1.pending = s1.job then none else s1.pending
        experiment_scheduled := false
        job := none }
    else s1
  if s2.collect_data then
    { s2 with
      mouse_list := s2.mouse_list ++
        [⟨s2.trial, now - s2.start_time,
          ((x_win - cfg.x_origin : ℤ) : ℚ), ((cfg.y_origin - y_win : ℤ) : ℚ)⟩] }
  else s2

/-- `Experiment.click` (lines 644-770): on a click on the live target, record
the final sample, finalize and interpolate the path, append the trial
properties, advance the counters and return to the idle state; otherwise only
update the instruction text. -/
def click (cfg : ExpConfig) (now : ℚ) (x_win y_win : ℤ)
    (onCanvas onTarget : Bool) (s : ExpState) : ExpState :=
  if onCanvas then
    if onTarget && s.targetVisible then
      let df := s.mouse_list ++
        [⟨s.trial, now - s.start_time,
          ((x_win - cfg.x_origin : ℤ) : ℚ), ((cfg.y_origin - y_win : ℤ) : ℚ)⟩]
      let newTrial := s.trial + 1
      { s with
        mouse_list := []
        list_with_dataframes := s.list_with_dataframes ++ [df]
        interpolated_paths := s.interpolated_paths ++ [interpolate s.trial df]
        prop_list := s.prop_list ++
          [⟨s.trial, s.trial_for_input_method_ctr,
            s.target_x, s.target_y, s.target_radius, s.delay⟩]
        collect_data := false
        experiment_scheduled := false
        targetVisible := false
        trial := newTrial
        trial_for_input_method_ctr := s.trial_for_input_method_ctr + 1
        nr_trackpad_trials_collected :=
          if cfg.max_training_nr < newTrial && cfg.input_method = 0 then
            s.nr_trackpad_trials_collected + 1
          else s.nr_trackpad_trials_collected
        nr_mouse_trials_collected :=
          if cfg.max_training_nr < newTrial && !(cfg.input_method = 0 : Bool) then
            s.nr_mouse_trials_collected + 1
          else s.nr_mouse_trials_collected
        text := "Move your mouse back to the red square" }
    else if !s.experiment_scheduled then
      { s with text := "First move your mouse to the red square to start an experiment" }
    else if s.job.isNone then
      { s with text := "Miss!" }
    else s
  else if !s.experiment_scheduled then
    { s with text := "First move your mouse to the red square to start an experiment" }
  else if s.job.isNone then
    { s with text := "Miss!" }
  else s

/-- Dispatch one event.  A fire event runs the timer callback only when the
scheduler still holds a pending callback; a cancelled timer never fires. -/
def step (cfg : ExpConfig) (s : ExpState) : Ev → ExpState
  | .motion now x y onCanvas onMiddle d => motion cfg now x y onCanvas onMiddle d s
  | .click now x y onCanvas onTarget => click cfg now x y onCanvas onTarget s
  | .fire now onMiddle tx ty radius px py =>
      match s.pending with
      | none => s
      | some _ =>
          start_experiment cfg now onMiddle tx ty radius px py { s with pending := none }

/-- Run a sequence of events. -/
def run (cfg : ExpConfig) (s : ExpState) : List Ev → ExpState
  | [] => s
  | e :: es => run cfg (step cfg s e) es

/-- Invariant of the scheduler: while data is being collected the sample
buffer is nonempty and starts with the sample taken at elapsed time `0`, and
the target is only visible while collecting. -/
def PathsInv (s : ExpState) : Prop :=
  (s.collect_data = true → ∃ r0 rest, s.mouse_list = r0 :: rest ∧ r0.t = 0) ∧
  (s.targetVisible = true → s.collect_data = true)

/-- Concrete configuration used by witnesses and counterexamples: mouse input,
`max_nr_paths = 15`, `max_training_nr = 5`, a 700-pixel window. -/
def cfgDemo : ExpConfig := ⟨1, 15, 5, 350, 350⟩

/-- A fresh-session collection status. -/
def statusDemo : CollectionStatus := ⟨0, 0, -1, -1, -1⟩

/-- The initial experiment state for the demo configuration. -/
def initDemo : ExpState := initExp cfgDemo statusDemo 0

/-! ## Theorems -/

/-- C9 (part): with no readable history, `read_old_properties` signals
failure non-fatally. -/
theorem read_old_properties_no_history (f : FileRead (List PropsRow))
    (h : f = .absent ∨ f = .unreadable) :
    read_old_properties f = (false, none) := by
  rcases h with h | h <;> subst h <;> rfl

/-- C9: when the prior properties file is absent or fails to parse, the run
proceeds as a fresh session: the reconstructed collection status has last
overall trial number `-1`, per-input-method last trial numbers `-1` and
collected counts `0`, and no user-settings snapshot is recovered. -/
theorem no_history_fresh_session (settings : ExperimentSettings)
    (propsFile : FileRead (List PropsRow)) (pathsFile : FileRead (List SampleRow))
    (h : propsFile = .absent ∨ propsFile = .unreadable) :
    read_old_properties propsFile = (false, none) ∧
    (startInit settings propsFile pathsFile).collection_status = ⟨0, 0, -1, -1, -1⟩ ∧
    (startInit settings propsFile pathsFile).user_settings = none := by
  rcases h with h | h <;> subst h <;>
    exact ⟨rfl, by simp [startInit, read_old_properties], rfl⟩

/-- Witness for C9 at a concrete input: an absent properties file. -/
theorem no_history_fresh_session_witness :
    read_old_properties (.absent : FileRead (List PropsRow)) = (false, none) ∧
    (startInit ⟨15, 5⟩ .absent (.absent : FileRead (List SampleRow))).collection_status
      = ⟨0, 0, -1, -1, -1⟩ ∧
    (startInit ⟨15, 5⟩ .absent (.absent : FileRead (List SampleRow))).user_settings = none :=
  no_history_fresh_session ⟨15, 5⟩ .absent .absent (Or.inl rfl)

/-- C10: when the old properties file parses but the old paths file is absent
or unreadable, the history rows are not merged into the written output (the
persisted stores are computed from the session data alone), the
per-input-method counters start at their fresh-session values, yet the overall
trial numbering continues from the old properties file and the last
user-settings snapshot is still extracted to pre-populate the settings
form. -/
theorem props_only_history_not_merged (settings : ExperimentSettings)
    (df : List PropsRow) (pathsFile : FileRead (List SampleRow))
    (hpaths : pathsFile = .absent ∨ pathsFile = .unreadable) (hne : df ≠ [])
    (session_paths : List SampleRow) (session_props : List PropsRow) :
    (startInit settings (.ok df) pathsFile).collection_status
      = ⟨0, 0, -1, -1, seriesMaxZ (df.map (·.trial))⟩ ∧
    (startInit settings (.ok df) pathsFile).user_settings
      = extract_user_settings df ∧
    (∃ r, df.getLast? = some r ∧
      extract_user_settings df
        = some ⟨r.use_tue_laptop, r.mouse_speed, r.mouse_accuracy, r.right_handed,
                r.input_method, r.major, r.gender, r.right_trackpad_handed,
                r.right_mouse_handed, r.trackpad_speed_set⟩) ∧
    persistOutputs settings (.ok df) pathsFile session_paths session_props
      = (aggregatePaths settings.max_nr_paths session_props session_paths,
         aggregateProps settings.max_nr_paths session_props) ∧
    (aggregateProps settings.max_nr_paths session_props).Sublist session_props ∧
    (aggregatePaths settings.max_nr_paths session_props session_paths).Sublist
      session_paths := by
  obtain ⟨r, hr⟩ := List.getLast?_isSome.mpr hne |> Option.isSome_iff_exists.mp
  refine ⟨?_, ?_, ⟨r, hr, ?_⟩, ?_, List.filter_sublist _, List.filter_sublist _⟩ <;>
    rcases hpaths with h | h <;> subst h <;>
      simp [startInit, read_old_properties, persistOutputs, extract_user_settings, hr]

/-- Witness for C10 at a concrete input: one old mouse trial row, absent
paths file, one-session row. -/
theorem props_only_history_not_merged_witness :
    (mkPropsRow 3 1 :: [] ≠ []) ∧
    StartInit.collection_status
        (startInit ⟨15, 5⟩ (.ok [mkPropsRow 3 1]) (.absent : FileRead (List SampleRow)))
      = ⟨0, 0, -1, -1, seriesMaxZ ([mkPropsRow 3 1].map (·.trial))⟩ ∧
    persistOutputs ⟨15, 5⟩ (.ok [mkPropsRow 3 1]) .absent [] [mkPropsRow 4 1]
      = (aggregatePaths 15 [mkPropsRow 4 1] [], aggregateProps 15 [mkPropsRow 4 1]) := by
  have h := props_only_history_not_merged ⟨15, 5⟩ [mkPropsRow 3 1] .absent
    (Or.inl rfl) (by simp) [] [mkPropsRow 4 1]
  exact ⟨by simp, h.1, h.2.2.2.1⟩

/-- C8 counterexample: constructing the choice sampler with an empty list of
choices does not fail at construction time — the generator call succeeds, and
the `IndexError` only occurs at the first value request. -/
theorem choice_sampler_empty_constructs :
    choice_sampler ([] : List ℤ) = .ok ⟨[]⟩ ∧
    ChoiceSampler.next (⟨[]⟩ : ChoiceSampler ℤ) 0
      = .error "Cannot choose from an empty sequence" :=
  ⟨rfl, rfl⟩

/-- C8 as amended: constructing a sampler always succeeds (generator call);
the explicit error surfaces at the first value request, and exactly when the
choice list is empty (for the choice sampler) or the range is empty (for the
range sampler) — samplers have no other error conditions. -/
theorem sampler_error_first_request (choices : List ℤ) (r : ℕ) (a b : ℤ) :
    choice_sampler choices = .ok ⟨choices⟩ ∧
    ((∃ e, ChoiceSampler.next (⟨choices⟩ : ChoiceSampler ℤ) r = .error e) ↔ choices = []) ∧
    range_sampler a b = .ok ⟨a, b⟩ ∧
    ((∃ e, RangeSampler.next ⟨a, b⟩ r = .error e) ↔ b ≤ a) := by
  refine ⟨rfl, ⟨?_, ?_⟩, rfl, ⟨?_, ?_⟩⟩
  · rintro ⟨e, he⟩
    by_contra hne
    have hlen : 0 < choices.length := List.length_pos.mpr hne
    have hlt : r % choices.length < choices.length := Nat.mod_lt _ hlen
    rw [ChoiceSampler.next, List.get?_eq_get hlt] at he
    exact Except.noConfusion he
  · rintro rfl
    exact ⟨_, rfl⟩
  · rintro ⟨e, he⟩
    rw [RangeSampler.next] at he
    by_contra hne
    rw [if_pos (lt_of_not_le hne)] at he
    exact Except.noConfusion he
  · intro hba
    refine ⟨"empty range for randrange", ?_⟩
    rw [RangeSampler.next, if_neg (not_lt.mpr hba)]

/-- C3 counterexample: a two-sample path with a duplicated time value (a
degenerate, zero-time-span segment) does not raise a distinct error — the
interpolation returns an (empty) result silently. -/
theorem interpolate_duplicate_times_silent :
    (([⟨0, 0, 0, 0⟩, ⟨0, 0, 1, 1⟩] : List SampleRow).map (·.t) = [0, 0]) ∧
    interpolate 0 [⟨0, 0, 0, 0⟩, ⟨0, 0, 1, 1⟩] = some [] := by
  constructor
  · rfl
  · norm_num [interpolate, seriesMin, seriesMax]

/-- C3 as amended: a path with fewer than 2 samples makes `interpolate`
raise a distinct error (the `interp1d` constructor rejects it); duplicate
time values do not raise — the result is returned silently (possibly empty
or containing degenerate values). -/
theorem interpolate_short_input_raises (trial : ℤ) (df : List SampleRow)
    (h : df.length < 2) :
    interpolate trial df = none := by
  simp [interpolate, h]

/-- Witness for the amended C3 at a concrete input: a single-sample path. -/
theorem interpolate_short_input_raises_witness :
    ([(⟨0, 0, 0, 0⟩ : SampleRow)].length < 2) ∧
    interpolate 0 [⟨0, 0, 0, 0⟩] = none :=
  ⟨by norm_num, interpolate_short_input_raises 0 _ (by norm_num)⟩

/-- C4: from an unarmed, non-collecting state, a pointer-entry onto the home
marker (which draws a delay and arms a trial) followed by a pointer-leave
before the delay elapses cancels the pending scheduled callback, reverts the
scheduler to the unarmed idle state, and produces no Path, interpolated path
or TrialRecord for that arming; the cancelled timer can never fire. -/
theorem arm_then_leave_cancels (cfg : ExpConfig) (s : ExpState)
    (hsched : s.experiment_scheduled = false) (hcd : s.collect_data = false)
    (now1 now2 : ℚ) (x1 y1 x2 y2 : ℤ) (c2 : Bool) (d : ℕ) :
    ∃ s2, run cfg s [.motion now1 x1 y1 true true d, .motion now2 x2 y2 c2 false 0] = s2 ∧
      s2.pending = none ∧ s2.job = none ∧ s2.experiment_scheduled = false ∧
      s2.collect_data = false ∧
      s2.list_with_dataframes = s.list_with_dataframes ∧
      s2.interpolated_paths = s.interpolated_paths ∧
      s2.prop_list = s.prop_list ∧
      s2.mouse_list = s.mouse_list ∧
      (∀ now3 om tx ty radius px py, step cfg s2 (.fire now3 om tx ty radius px py) = s2) := by
  refine ⟨_, rfl, ?_, ?_, ?_, ?_, ?_, ?_, ?_, ?_, ?_⟩ <;>
    simp [run, step, motion, hsched, hcd]

/-- Witness for C4 at a concrete input: the demo initial state with a
pointer-entry at time `0` and a pointer-leave at time `1`. -/
theorem arm_then_leave_cancels_witness :
    initDemo.experiment_scheduled = false ∧ initDemo.collect_data = false ∧
    ∃ s2, run cfgDemo initDemo
        [.motion 0 350 350 true true 2500, .motion 1 10 10 true false 0] = s2 ∧
      s2.pending = none ∧ s2.job = none ∧ s2.experiment_scheduled = false ∧
      s2.collect_data = false ∧
      s2.list_with_dataframes = initDemo.list_with_dataframes ∧
      s2.interpolated_paths = initDemo.interpolated_paths ∧
      s2.prop_list = initDemo.prop_list ∧
      s2.mouse_list = initDemo.mouse_list ∧
      (∀ now3 om tx ty radius px py, step cfgDemo s2 (.fire now3 om tx ty radius px py) = s2) := by
  refine ⟨rfl, rfl, ?_⟩
  exact arm_then_leave_cancels cfgDemo initDemo rfl rfl 0 1 350 350 10 10 true 2500

/-- C7 counterexample: after arming at the home marker and letting the timer
fire while the pointer is away, the transition is aborted and the user is
prompted, but the scheduler is NOT left effectively unarmed: a fresh
pointer-entry onto the home marker is a no-op (no new callback is scheduled,
`pending` stays empty and the job allocator is untouched), unlike a fresh
entry from the idle state, which schedules a callback. -/
theorem fire_while_away_entry_does_not_arm :
    (run cfgDemo initDemo
      [.motion 0 350 350 true true 2500, .fire 3 false 0 0 3 0 0]).experiment_scheduled
        = true ∧
    (run cfgDemo initDemo
      [.motion 0 350 350 true true 2500, .fire 3 false 0 0 3 0 0]).collect_data = false ∧
    (run cfgDemo initDemo
      [.motion 0 350 350 true true 2500, .fire 3 false 0 0 3 0 0,
       .motion 4 350 350 true true 2600]).pending = none ∧
    (run cfgDemo initDemo
      [.motion 0 350 350 true true 2500, .fire 3 false 0 0 3 0 0,
       .motion 4 350 350 true true 2600]).nextJobId = 1 ∧
    (run cfgDemo initDemo [.motion 4 350 350 true true 2600]).pending = some 0 := by
  refine ⟨?_, ?_, ?_, ?_, ?_⟩ <;>
    simp [run, step, motion, start_experiment, initDemo, initExp, cfgDemo, statusDemo]

/-- C7 as amended: when the delay callback fires with the pointer off the
home marker, the transition to `COLLECTING` is aborted and the user is
prompted to keep the pointer on the marker, but `experiment_scheduled` stays
set and the stale job id remains, so a direct pointer-entry onto the marker
does not arm a new trial; only after a subsequent off-marker motion event
clears the stale job does a fresh pointer-entry arm a new delayed trial. -/
theorem fire_while_away_stale_arming (cfg : ExpConfig) (s : ExpState) (j : ℕ)
    (hjob : s.job = some j) (hpend : s.pending = some j)
    (hsched : s.experiment_scheduled = true) (hcd : s.collect_data = false)
    (now1 now3 now4 : ℚ) (tx ty radius px py x3 y3 x4 y4 : ℤ) (c3 : Bool) (d3 d4 : ℕ) :
    ∃ sF, step cfg s (.fire now1 false tx ty radius px py) = sF ∧
      sF.collect_data = false ∧
      sF.text = "Keep your mouse on the red square to start the experiment" ∧
      sF.experiment_scheduled = true ∧ sF.job = some j ∧ sF.pending = none ∧
      (∀ now2 x2 y2 d2, step cfg sF (.motion now2 x2 y2 true true d2) = sF) ∧
      ∃ sG, step cfg sF (.motion now3 x3 y3 c3 false d3) = sG ∧
        sG.job = none ∧ sG.experiment_scheduled = false ∧ sG.collect_data = false ∧
        (step cfg sG (.motion now4 x4 y4 true true d4)).pending = some sG.nextJobId ∧
        (step cfg sG (.motion now4 x4 y4 true true d4)).experiment_scheduled = true := by
  refine ⟨_, rfl, ?_, ?_, ?_, ?_, ?_, ?_, _, rfl, ?_, ?_, ?_, ?_, ?_⟩ <;>
    simp [step, start_experiment, motion, hjob, hpend, hsched, hcd]

/-- Witness for the amended C7 at a concrete input: arm from the demo state,
then fire with the pointer away. -/
theorem fire_while_away_stale_arming_witness :
    (run cfgDemo initDemo [.motion 0 350 350 true true 2500]).job = some 0 ∧
    (run cfgDemo initDemo [.motion 0 350 350 true true 2500]).pending = some 0 ∧
    (run cfgDemo initDemo [.motion 0 350 350 true true 2500]).experiment_scheduled = true ∧
    (run cfgDemo initDemo [.motion 0 350 350 true true 2500]).collect_data = false ∧
    ∃ sF, step cfgDemo (run cfgDemo initDemo [.motion 0 350 350 true true 2500])
        (.fire 3 false 0 0 3 0 0) = sF ∧
      sF.experiment_scheduled = true ∧ sF.pending = none := by
  have h1 : (run cfgDemo initDemo [.motion 0 350 350 true true 2500]).job = some 0 := by
    simp [run, step, motion, initDemo, initExp, cfgDemo, statusDemo]
  have h2 : (run cfgDemo initDemo [.motion 0 350 350 true true 2500]).pending = some 0 := by
    simp [run, step, motion, initDemo, initExp, cfgDemo, statusDemo]
  have h3 : (run cfgDemo initDemo
      [.motion 0 350 350 true true 2500]).experiment_scheduled = true := by
    simp [run, step, motion, initDemo, initExp, cfgDemo, statusDemo]
  have h4 : (run cfgDemo initDemo [.motion 0 350 350 true true 2500]).collect_data = false := by
    simp [run, step, motion, initDemo, initExp, cfgDemo, statusDemo]
  obtain ⟨sF, hF, hFc, _, hFs, _, hFp, _⟩ :=
    fire_while_away_stale_arming cfgDemo _ 0 h1 h2 h3 h4 3 0 0 0 0 3 0 0 0 0 0 0 true 0 0
  exact ⟨h1, h2, h3, h4, sF, hF, hFs, hFp⟩

/-- A motion event never changes `collect_data` or `targetVisible`, and at
most appends one sample to the buffer. -/
theorem motion_fields (cfg : ExpConfig) (now : ℚ) (x y : ℤ) (oc om : Bool)
    (d : ℕ) (s : ExpState) :
    (motion cfg now x y oc om d s).collect_data = s.collect_data ∧
    (motion cfg now x y oc om d s).targetVisible = s.targetVisible ∧
    ((motion cfg now x y oc om d s).mouse_list = s.mouse_list ∨
      ∃ row, (motion cfg now x y oc om d s).mouse_list = s.mouse_list ++ [row]) := by
  cases oc <;> cases om <;>
    rcases hj : s.job with _ | j <;>
    cases hsc : s.experiment_scheduled <;>
    cases hcd : s.collect_data <;>
    simp [motion, hj, hsc, hcd]

/-- The scheduler invariant holds in the initial state. -/
theorem pathsInv_init (cfg : ExpConfig) (status : CollectionStatus) (now : ℚ) :
    PathsInv (initExp cfg status now) := by
  constructor <;> intro h <;> simp [initExp] at h

/-- The scheduler invariant is preserved by every event. -/
theorem pathsInv_step (cfg : ExpConfig) (s : ExpState) (e : Ev) (h : PathsInv s) :
    PathsInv (step cfg s e) := by
  obtain ⟨h1, h2⟩ := h
  cases e with
  | motion now x y oc om d =>
      simp only [step]
      obtain ⟨hc, hv, hml⟩ := motion_fields cfg now x y oc om d s
      constructor
      · intro hcol
        rw [hc] at hcol
        obtain ⟨r0, rest, hml0, ht⟩ := h1 hcol
        rcases hml with hml | ⟨row, hml⟩
        · exact ⟨r0, rest, by rw [hml, hml0], ht⟩
        · exact ⟨r0, rest ++ [row], by rw [hml, hml0]; simp, ht⟩
      · intro hv2
        rw [hc]
        refine h2 ?_
        rw [hv] at hv2
        exact hv2
  | click now x y oc ot =>
      cases oc <;> cases ot <;>
        rcases hj : s.job with _ | j <;>
        cases hsc : s.experiment_scheduled <;>
        cases htv : s.targetVisible <;>
        simp_all [step, click, PathsInv]
  | fire now om tx ty radius px py =>
      rcases hp : s.pending with _ | j <;> cases om <;>
        simp_all [step, start_experiment, PathsInv]

/-- The scheduler invariant holds in every reachable state. -/
theorem pathsInv_run (cfg : ExpConfig) (tr : List Ev) (s : ExpState) (h : PathsInv s) :
    PathsInv (run cfg s tr) := by
  induction tr generalizing s with
  | nil => exact h
  | cons e es ih => exact ih _ (pathsInv_step cfg s e h)

/-- C5: in any reachable state in which the target is visible, a successful
click on the target finalizes a Path whose first sample has elapsed time `0`
(the sample recorded at the moment the target appeared) and whose last
sample position is the recorded click position. -/
theorem completed_trial_path_endpoints (cfg : ExpConfig) (status : CollectionStatus)
    (now0 : ℚ) (tr : List Ev) (now : ℚ) (x_win y_win : ℤ)
    (hvis : (run cfg (initExp cfg status now0) tr).targetVisible = true) :
    ∃ path r0 rest,
      (step cfg (run cfg (initExp cfg status now0) tr)
          (.click now x_win y_win true true)).list_with_dataframes
        = (run cfg (initExp cfg status now0) tr).list_with_dataframes ++ [path] ∧
      path = r0 :: rest ∧ r0.t = 0 ∧
      path.getLast? = some
        ⟨(run cfg (initExp cfg status now0) tr).trial,
         now - (run cfg (initExp cfg status now0) tr).start_time,
         ((x_win - cfg.x_origin : ℤ) : ℚ), ((cfg.y_origin - y_win : ℤ) : ℚ)⟩ := by
  have hinv := pathsInv_run cfg tr _ (pathsInv_init cfg status now0)
  have hcd : (run cfg (initExp cfg status now0) tr).collect_data = true := hinv.2 hvis
  obtain ⟨r0, rest, hml, ht⟩ := hinv.1 hcd
  refine ⟨(run cfg (initExp cfg status now0) tr).mouse_list ++
      [⟨(run cfg (initExp cfg status now0) tr).trial,
        now - (run cfg (initExp cfg status now0) tr).start_time,
        ((x_win - cfg.x_origin : ℤ) : ℚ), ((cfg.y_origin - y_win : ℤ) : ℚ)⟩],
    r0, rest ++
      [⟨(run cfg (initExp cfg status now0) tr).trial,
        now - (run cfg (initExp cfg status now0) tr).start_time,
        ((x_win - cfg.x_origin : ℤ) : ℚ), ((cfg.y_origin - y_win : ℤ) : ℚ)⟩],
    ?_, ?_, ht, ?_⟩
  · simp [step, click, hvis]
  · rw [hml]
    simp
  · exact List.getLast?_concat _

/-- Witness for C5 at a concrete input: arm at time 0, fire on the marker at
time 3, then click on the target. -/
theorem completed_trial_path_endpoints_witness :
    (run cfgDemo (initExp cfgDemo statusDemo 0)
      [.motion 0 350 350 true true 2500,
       .fire 3 true 100 50 6 340 360]).targetVisible = true ∧
    ∃ path r0 rest,
      (step cfgDemo (run cfgDemo (initExp cfgDemo statusDemo 0)
          [.motion 0 350 350 true true 2500, .fire 3 true 100 50 6 340 360])
          (.click 4 400 300 true true)).list_with_dataframes
        = (run cfgDemo (initExp cfgDemo statusDemo 0)
            [.motion 0 350 350 true true 2500,
             .fire 3 true 100 50 6 340 360]).list_with_dataframes ++ [path] ∧
      path = r0 :: rest ∧ r0.t = 0 ∧
      path.getLast? = some
        ⟨(run cfgDemo (initExp cfgDemo statusDemo 0)
            [.motion 0 350 350 true true 2500, .fire 3 true 100 50 6 340 360]).trial,
         4 - (run cfgDemo (initExp cfgDemo statusDemo 0)
            [.motion 0 350 350 true true 2500, .fire 3 true 100 50 6 340 360]).start_time,
         ((400 - cfgDemo.x_origin : ℤ) : ℚ), ((cfgDemo.y_origin - 300 : ℤ) : ℚ)⟩ := by
  have hv : (run cfgDemo (initExp cfgDemo statusDemo 0)
      [.motion 0 350 350 true true 2500,
       .fire 3 true 100 50 6 340 360]).targetVisible = true := by
    simp [run, step, motion, start_experiment, initExp, cfgDemo, statusDemo]
  exact ⟨hv, completed_trial_path_endpoints cfgDemo statusDemo 0 _ 4 400 300 hv⟩

/-! ### Aggregation lemmas -/

/-- Taking `k` elements commutes with a filtering that keeps the whole
`k`-prefix. -/
theorem take_filter_of_all (p : ℤ → Bool) :
    ∀ (l : List ℤ) (k : ℕ), (∀ a ∈ l.take k, p a = true) →
      (l.filter p).take k = l.take k := by
  intro l
  induction l with
  | nil => intro k _; simp
  | cons a tl ih =>
      intro k hk
      cases k with
      | zero => simp
      | succ k =>
          have hpa : p a = true := hk a (by simp)
          rw [List.filter_cons_of_pos hpa, List.take_succ_cons, List.take_succ_cons,
            ih k fun b hb => hk b (List.mem_cons_of_mem a hb)]

/-- Sorting descending commutes with filtering. -/
theorem sort_ge_filter (p : ℤ → Bool) (l : List ℤ) :
    List.insertionSort (fun a b : ℤ => b ≤ a) (l.filter p)
      = (List.insertionSort (fun a b : ℤ => b ≤ a) l).filter p := by
  have hperm : List.Perm (List.insertionSort (fun a b : ℤ => b ≤ a) (l.filter p))
      ((List.insertionSort (fun a b : ℤ => b ≤ a) l).filter p) :=
    (List.perm_insertionSort _ _).trans (((List.perm_insertionSort _ l).symm).filter p)
  exact List.eq_of_perm_of_sorted hperm (List.sorted_insertionSort _ _)
    ((List.sorted_insertionSort _ l).sublist (List.filter_sublist _))

/-- `nlargest` is unchanged by a filtering that keeps everything it selects. -/
theorem nlargest_filter_stable (k : ℕ) (l : List ℤ) (p : ℤ → Bool)
    (hp : ∀ a ∈ nlargest k l, p a = true) :
    nlargest k (l.filter p) = nlargest k l := by
  unfold nlargest at hp ⊢
  rw [sort_ge_filter, take_filter_of_all p _ k hp]

/-- Filtering the properties rows by a predicate on the trial number commutes
into the per-input-method trial column. -/
theorem methodTrials_filter (props : List PropsRow) (m : ℤ) (q : ℤ → Bool) :
    methodTrials (props.filter (fun r => q r.trial)) m = (methodTrials props m).filter q := by
  unfold methodTrials
  rw [List.filter_map, List.filter_filter, List.filter_filter]
  refine congrArg _ (List.filter_congr fun r _ => ?_)
  simp [Function.comp, Bool.and_comm]

/-- Unfolding lemma for `aggregateProps`. -/
theorem aggregateProps_def (k : ℕ) (props : List PropsRow) :
    aggregateProps k props
      = props.filter (fun r =>
          decide (r.trial ∈ nlargest k (methodTrials props 1) ∨
                  r.trial ∈ nlargest k (methodTrials props 0))) := rfl

/-- Unfolding lemma for `aggregatePaths`. -/
theorem aggregatePaths_def (k : ℕ) (props : List PropsRow) (paths : List SampleRow) :
    aggregatePaths k props paths
      = paths.filter (fun r =>
          decide (r.trial ∈ nlargest k (methodTrials props 1) ∨
                  r.trial ∈ nlargest k (methodTrials props 0))) := rfl

/-- The retention selection of the aggregated properties coincides with the
selection computed on the original properties. -/
theorem nlargest_aggregate_stable (k : ℕ) (props : List PropsRow) (m : ℤ)
    (hm : m = 1 ∨ m = 0) :
    nlargest k (methodTrials (aggregateProps k props) m)
      = nlargest k (methodTrials props m) := by
  rw [aggregateProps_def,
    methodTrials_filter props m (fun t =>
      decide (t ∈ nlargest k (methodTrials props 1) ∨
              t ∈ nlargest k (methodTrials props 0)))]
  refine nlargest_filter_stable k _ _ fun a ha => ?_
  rcases hm with rfl | rfl <;> simp [ha]

/-- C6: the Session Aggregator's retention selection and row filtering are
idempotent — applying them a second time to an already-aggregated
paths/properties pair yields exactly the same pair. -/
theorem aggregator_idempotent (k : ℕ) (props : List PropsRow) (paths : List SampleRow) :
    aggregateProps k (aggregateProps k props) = aggregateProps k props ∧
    aggregatePaths k (aggregateProps k props) (aggregatePaths k props paths)
      = aggregatePaths k props paths := by
  have h1 := nlargest_aggregate_stable k props 1 (Or.inl rfl)
  have h0 := nlargest_aggregate_stable k props 0 (Or.inr rfl)
  constructor
  · rw [aggregateProps_def k (aggregateProps k props), h1, h0]
    exact List.filter_eq_self.mpr fun a ha => by
      rw [aggregateProps_def] at ha
      exact (List.mem_filter.mp ha).2
  · rw [aggregatePaths_def k (aggregateProps k props), h1, h0,
      aggregatePaths_def k props, List.filter_filter]
    exact List.filter_congr fun a _ => Bool.and_self _

/-- In a descending-sorted list the entries `≥ T` form a prefix, so the
`k`-prefix contains `min (total count) k` of them. -/
theorem countP_take_sorted_ge (T : ℤ) :
    ∀ (S : List ℤ), List.Sorted (fun a b : ℤ => b ≤ a) S → ∀ k : ℕ,
      (S.take k).countP (fun t => decide (T ≤ t))
        = min (S.countP (fun t => decide (T ≤ t))) k := by
  intro S
  induction S with
  | nil => intro _ k; simp
  | cons a S ih =>
      intro hs k
      cases k with
      | zero => simp
      | succ k =>
          rw [List.take_succ_cons, List.countP_cons, List.countP_cons,
            ih hs.of_cons k]
          by_cases hTa : T ≤ a
          · simp only [hTa, decide_True, if_true]
            rw [Nat.succ_min_succ]
          · have hall : S.countP (fun t => decide (T ≤ t)) = 0 := by
              rw [List.countP_eq_zero]
              intro b hb
              have hba : b ≤ a := List.rel_of_sorted_cons hs b hb
              simp only [decide_eq_true_eq]
              omega
            simp [hTa, hall]

/-- Counting entries of a nodup concatenation that satisfy `p` and lie in the
first part counts `p` over the first part. -/
theorem countP_and_mem_append (p : ℤ → Bool) (l1 l2 : List ℤ)
    (hnd : (l1 ++ l2).Nodup) :
    (l1 ++ l2).countP (fun t => p t && decide (t ∈ l1)) = l1.countP p := by
  rw [List.countP_append]
  have h1 : l1.countP (fun t => p t && decide (t ∈ l1)) = l1.countP p :=
    List.countP_congr fun a ha => by simp [ha]
  have h2 : l2.countP (fun t => p t && decide (t ∈ l1)) = 0 := by
    rw [List.countP_eq_zero]
    intro a ha
    have hnotin : a ∉ l1 := fun hmem => (List.nodup_append.mp hnd).2.2 hmem ha
    simp [hnotin]
  rw [h1, h2, Nat.add_zero]

/-- Everything `nlargest` selects comes from the input list. -/
theorem mem_of_mem_nlargest (k : ℕ) (l : List ℤ) (a : ℤ) (h : a ∈ nlargest k l) :
    a ∈ l :=
  (List.perm_insertionSort _ l).subset ((List.take_sublist _ _).subset h)

/-- Counting properties rows of one input method by a predicate on the trial
number counts the predicate over that method's trial column. -/
theorem countP_props_trial (props : List PropsRow) (m : ℤ) (q : ℤ → Bool) :
    props.countP (fun r => decide (r.input_method = m) && q r.trial)
      = (methodTrials props m).countP q := by
  unfold methodTrials
  rw [List.countP_map, List.countP_filter]
  exact List.countP_congr fun r _ => by simp [Function.comp, Bool.and_comm]

/-- A method's trial column is a sublist of the whole trial column. -/
theorem methodTrials_sublist (props : List PropsRow) (m : ℤ) :
    List.Sublist (methodTrials props m) (props.map (·.trial)) := by
  unfold methodTrials
  exact (List.filter_sublist _).map _

/-- Under globally distinct trial numbers, a row is never selected through
the other input method's retention list. -/
theorem not_mem_other_method (props : List PropsRow)
    (hnd : (props.map (·.trial)).Nodup) (r : PropsRow) (hr : r ∈ props)
    (mo : ℤ) (hmo : r.input_method ≠ mo) (k : ℕ) :
    r.trial ∉ nlargest k (methodTrials props mo) := by
  intro hin
  have hmem := mem_of_mem_nlargest _ _ _ hin
  obtain ⟨r', hr'⟩ : ∃ r', (r' ∈ props ∧ r'.input_method = mo) ∧ r'.trial = r.trial := by
    simpa [methodTrials, List.mem_map, List.mem_filter] using hmem
  have heq : r = r' := List.inj_on_of_nodup_map hnd hr hr'.1.1 hr'.2.symm
  exact hmo (by rw [heq]; exact hr'.1.2)

/-- Among a nodup list, the entries `≥ T` that survive the `nlargest k`
selection number `min (total ≥ T) k`. -/
theorem countP_nlargest_min (k : ℕ) (T : ℤ) (L : List ℤ) (hLnd : L.Nodup) :
    L.countP (fun t => decide (T ≤ t) && decide (t ∈ nlargest k L))
      = min (L.countP (fun t => decide (T ≤ t))) k := by
  have hSL : List.Perm (List.insertionSort (fun a b : ℤ => b ≤ a) L) L :=
    List.perm_insertionSort _ L
  have hSnd : (List.insertionSort (fun a b : ℤ => b ≤ a) L).Nodup :=
    hSL.nodup_iff.mpr hLnd
  have hmem := countP_and_mem_append (fun t => decide (T ≤ t))
    ((List.insertionSort (fun a b : ℤ => b ≤ a) L).take k)
    ((List.insertionSort (fun a b : ℤ => b ≤ a) L).drop k)
    (by rw [List.take_append_drop]; exact hSnd)
  rw [List.take_append_drop] at hmem
  have htake := countP_take_sorted_ge T _ (List.sorted_insertionSort _ L) k
  have hp1 : L.countP (fun t => decide (T ≤ t) && decide (t ∈ nlargest k L))
      = (List.insertionSort (fun a b : ℤ => b ≤ a) L).countP
          (fun t => decide (T ≤ t) && decide (t ∈ nlargest k L)) := (hSL.countP_eq _).symm
  have hp2 : (List.insertionSort (fun a b : ℤ => b ≤ a) L).countP (fun t => decide (T ≤ t))
      = L.countP (fun t => decide (T ≤ t)) := hSL.countP_eq _
  rw [hp1]
  unfold nlargest
  rw [hmem, htake, hp2]

/-- C2: after aggregation, for each input method the number of distinct
non-training trial numbers (`trial ≥ max_training_nr`) present in the
persisted properties output equals `min (available for that method,
max_nr_paths)` — in particular it never exceeds `max_nr_paths`.  The trial
numbers of the combined input are assumed globally distinct, as produced by
the strictly increasing overall trial counter. -/
theorem retention_invariant (settings : ExperimentSettings) (props : List PropsRow)
    (hnd : (props.map (·.trial)).Nodup) (m : ℤ) (hm : m = 0 ∨ m = 1) :
    (((aggregateProps settings.max_nr_paths props).filter
        (fun r => decide (r.input_method = m ∧ settings.max_training_nr ≤ r.trial))).map
      (·.trial)).length
      = min
        ((props.filter
            (fun r => decide (r.input_method = m ∧ settings.max_training_nr ≤ r.trial))).length)
        settings.max_nr_paths := by
  rw [List.length_map, ← List.countP_eq_length_filter, ← List.countP_eq_length_filter,
    aggregateProps_def, List.countP_filter]
  have hstep2 : props.countP
      (fun r => decide (r.input_method = m ∧ settings.max_training_nr ≤ r.trial) &&
        decide (r.trial ∈ nlargest settings.max_nr_paths (methodTrials props 1) ∨
                r.trial ∈ nlargest settings.max_nr_paths (methodTrials props 0)))
      = props.countP
      (fun r => decide (r.input_method = m ∧ settings.max_training_nr ≤ r.trial) &&
        decide (r.trial ∈ nlargest settings.max_nr_paths (methodTrials props m))) := by
    refine List.countP_congr fun r hr => ?_
    rcases hm with rfl | rfl
    · by_cases hmr : r.input_method = 0 ∧ settings.max_training_nr ≤ r.trial
      · have hnot : r.trial ∉ nlargest settings.max_nr_paths (methodTrials props 1) :=
          not_mem_other_method props hnd r hr 1 (by rw [hmr.1]; decide) _
        simp [hmr.1, hmr.2, hnot]
      · simp [hmr]
    · by_cases hmr : r.input_method = 1 ∧ settings.max_training_nr ≤ r.trial
      · have hnot : r.trial ∉ nlargest settings.max_nr_paths (methodTrials props 0) :=
          not_mem_other_method props hnd r hr 0 (by rw [hmr.1]; decide) _
        simp [hmr.1, hmr.2, hnot]
      · simp [hmr]
  rw [hstep2]
  have hconvL : props.countP
      (fun r => decide (r.input_method = m ∧ settings.max_training_nr ≤ r.trial) &&
        decide (r.trial ∈ nlargest settings.max_nr_paths (methodTrials props m)))
      = (methodTrials props m).countP
          (fun t => decide (settings.max_training_nr ≤ t) &&
            decide (t ∈ nlargest settings.max_nr_paths (methodTrials props m))) := by
    rw [← countP_props_trial props m
      (fun t => decide (settings.max_training_nr ≤ t) &&
        decide (t ∈ nlargest settings.max_nr_paths (methodTrials props m)))]
    refine List.countP_congr fun r _ => ?_
    by_cases h1 : r.input_method = m <;>
      by_cases h2 : settings.max_training_nr ≤ r.trial <;>
        simp [h1, h2]
  have hconvR : props.countP
      (fun r => decide (r.input_method = m ∧ settings.max_training_nr ≤ r.trial))
      = (methodTrials props m).countP
          (fun t => decide (settings.max_training_nr ≤ t)) := by
    rw [← countP_props_trial props m (fun t => decide (settings.max_training_nr ≤ t))]
    refine List.countP_congr fun r _ => ?_
    by_cases h1 : r.input_method = m <;>
      by_cases h2 : settings.max_training_nr ≤ r.trial <;>
        simp [h1, h2]
  rw [hconvL, hconvR]
  exact countP_nlargest_min settings.max_nr_paths settings.max_training_nr
    (methodTrials props m) (hnd.sublist (methodTrials_sublist props m))

/-- Witness for C2 at a concrete input: 21 above-threshold mouse trials
(20 prior plus one new), `max_nr_paths = 15`, `max_training_nr = 5` — exactly
15 mouse trial numbers are retained. -/
theorem retention_invariant_witness :
    ((((List.range 21).map (fun i => mkPropsRow (5 + (i : ℤ)) 1)).map (·.trial)).Nodup) ∧
    (((aggregateProps 15 ((List.range 21).map (fun i => mkPropsRow (5 + (i : ℤ)) 1))).filter
        (fun r => decide (r.input_method = 1 ∧ (5 : ℤ) ≤ r.trial))).map (·.trial)).length
      = 15 := by
  have hnd : (((List.range 21).map (fun i => mkPropsRow (5 + (i : ℤ)) 1)).map
      (·.trial)).Nodup := by decide
  have h := retention_invariant ⟨15, 5⟩
    ((List.range 21).map (fun i => mkPropsRow (5 + (i : ℤ)) 1)) hnd 1 (Or.inr rfl)
  refine ⟨hnd, ?_⟩
  have hlen : ((((List.range 21).map (fun i => mkPropsRow (5 + (i : ℤ)) 1)).filter
      (fun r => decide (r.input_method = 1 ∧ (5 : ℤ) ≤ r.trial)))).length = 21 := by decide
  simpa [hlen] using h

/-! ### Interpolation lemmas -/

/-- `searchsorted` correctness, upper part: in an ascending-sorted list, an
entry at index `j` that is at least `q` bounds the insertion point by `j`. -/
theorem countP_lt_le_of_ge (q : ℚ) :
    ∀ (ts : List ℚ), List.Pairwise (· ≤ ·) ts → ∀ (j : ℕ) (hj : j < ts.length),
      q ≤ ts.get ⟨j, hj⟩ → ts.countP (fun a => decide (a < q)) ≤ j := by
  intro ts
  induction ts with
  | nil => intro _ j hj; simp at hj
  | cons a tl ih =>
      intro hs j hj hq
      cases j with
      | zero =>
          have h0 : (a :: tl).countP (fun x => decide (x < q)) = 0 := by
            rw [List.countP_eq_zero]
            intro b hb
            simp only [decide_eq_true_eq, not_lt]
            rcases List.mem_cons.mp hb with rfl | hb2
            · exact hq
            · exact le_trans hq (List.rel_of_sorted_cons hs b hb2)
          omega
      | succ j =>
          rw [List.countP_cons]
          have hih := ih hs.of_cons j (by simpa using hj) (by simpa using hq)
          by_cases hc : decide (a < q) = true <;> simp [hc] <;> omega

/-- `searchsorted` correctness, lower part: in an ascending-sorted list, an
entry at index `j` strictly below `q` forces the insertion point past `j`. -/
theorem lt_countP_of_lt (q : ℚ) :
    ∀ (ts : List ℚ), List.Pairwise (· ≤ ·) ts → ∀ (j : ℕ) (hj : j < ts.length),
      ts.get ⟨j, hj⟩ < q → j < ts.countP (fun a => decide (a < q)) := by
  intro ts
  induction ts with
  | nil => intro _ j hj; simp at hj
  | cons a tl ih =>
      intro hs j hj hlt
      cases j with
      | zero =>
          have : decide (a < q) = true := by simpa using hlt
          rw [List.countP_cons, this]
          simp
      | succ j =>
          have hj2 : j < tl.length := by simpa using hj
          have hih := ih hs.of_cons j hj2 (by simpa using hlt)
          have haq : a < q := by
            have hmem : tl.get ⟨j, hj2⟩ ∈ tl := List.get_mem tl j hj2
            exact lt_of_le_of_lt (List.rel_of_sorted_cons hs _ hmem) (by simpa using hlt)
          rw [List.countP_cons]
          simp only [haq, decide_True, if_true]
          omega

/-- A fold of `min` over entries all at least the accumulator keeps the
accumulator. -/
theorem foldl_min_of_le (r : List ℚ) : ∀ a : ℚ, (∀ x ∈ r, a ≤ x) → r.foldl min a = a := by
  induction r with
  | nil => intro a _; rfl
  | cons b r2 ih =>
      intro a ha
      rw [List.foldl_cons, min_eq_left (ha b (by simp))]
      exact ih a fun x hx => ha x (by simp [hx])

/-- On an ascending-sorted nonempty list, `seriesMin` is the first entry. -/
theorem seriesMin_sorted (ts : List ℚ) (hs : ts.Pairwise (· ≤ ·)) (h0 : 0 < ts.length) :
    seriesMin ts = ts.get ⟨0, h0⟩ := by
  cases ts with
  | nil => simp at h0
  | cons a r => exact foldl_min_of_le r a fun x hx => List.rel_of_sorted_cons hs x hx

/-- A fold of `max` over an ascending-sorted list reaches the last entry. -/
theorem foldl_max_sorted :
    ∀ (r : List ℚ) (a : ℚ), (a :: r).Pairwise (· ≤ ·) →
      r.foldl max a = (a :: r).getLast (by simp) := by
  intro r
  induction r with
  | nil => intro a _; rfl
  | cons b r2 ih =>
      intro a hs
      rw [List.foldl_cons, max_eq_right (List.rel_of_sorted_cons hs b (by simp))]
      rw [ih b hs.of_cons]
      exact (List.getLast_cons (by simp)).symm

/-- On an ascending-sorted nonempty list, `seriesMax` is the last entry. -/
theorem seriesMax_sorted (ts : List ℚ) (hs : ts.Pairwise (· ≤ ·)) (h0 : 0 < ts.length) :
    seriesMax ts = ts.get ⟨ts.length - 1, by omega⟩ := by
  cases ts with
  | nil => simp at h0
  | cons a r =>
      have h1 := foldl_max_sorted r a hs
      have h2 := List.getLast_eq_get (a :: r) (by simp)
      rw [seriesMax, h1, h2]

/-- Evaluation of the scipy linear interpolant at an in-range query over a
strictly increasing sample list lands on the segment line of a consecutive
bracketing pair of samples, uniformly in the interpolated column `f`. -/
theorem interpValue_bracket (df : List SampleRow)
    (hps : df.Pairwise (fun a b : SampleRow => a.t < b.t)) (hn : 2 ≤ df.length) (q : ℚ)
    (hlo : (df.get ⟨0, by omega⟩).t ≤ q)
    (hhi : q ≤ (df.get ⟨df.length - 1, by omega⟩).t) :
    ∃ a b, ConsecPair df a b ∧ a.t ≤ q ∧ q ≤ b.t ∧
      ∀ f : SampleRow → ℚ,
        interpValue (df.map (fun r => (r.t, f r))) q
          = f a + (f b - f a) * (q - a.t) / (b.t - a.t) := by
  have hts : List.Pairwise (· ≤ ·) (df.map (·.t)) := by
    rw [List.pairwise_map]
    exact hps.imp fun h => le_of_lt h
  have hlen : (df.map (·.t)).length = df.length := List.length_map df _
  have hget : ∀ (j : ℕ) (hj : j < df.length),
      (df.map (·.t)).get ⟨j, by rw [hlen]; exact hj⟩ = (df.get ⟨j, hj⟩).t := by
    intro j hj
    simp [List.get_map]
  set c := (df.map (·.t)).countP (fun a => decide (a < q)) with hc
  have hcle : c ≤ df.length - 1 := by
    refine countP_lt_le_of_ge q _ hts (df.length - 1) (by rw [hlen]; omega) ?_
    rw [hget (df.length - 1) (by omega)]
    exact hhi
  set idx := min (max c 1) (df.length - 1) with hidx
  have hidx1 : 1 ≤ idx := by omega
  have hidxn : idx ≤ df.length - 1 := by omega
  have hidxc : c ≤ idx := by omega
  have hidxlt : idx < df.length := by omega
  have hidx1lt : idx - 1 < df.length := by omega
  refine ⟨df.get ⟨idx - 1, hidx1lt⟩, df.get ⟨idx, hidxlt⟩, ⟨idx - 1, ?_, ?_⟩, ?_, ?_, ?_⟩
  · exact List.get?_eq_get hidx1lt
  · rw [show idx - 1 + 1 = idx by omega]
    exact List.get?_eq_get hidxlt
  · rcases Nat.eq_zero_or_pos c with hc0 | hcpos
    · have h10 : idx - 1 = 0 := by omega
      simp only [h10]
      exact hlo
    · by_contra hqa
      push_neg at hqa
      have hbound := countP_lt_le_of_ge q _ hts (idx - 1) (by rw [hlen]; omega)
        (by rw [hget _ hidx1lt]; exact le_of_lt hqa)
      omega
  · by_contra hqb
    push_neg at hqb
    have hbound := lt_countP_of_lt q _ hts idx (by rw [hlen]; omega)
      (by rw [hget _ hidxlt]; exact hqb)
    omega
  · intro f
    have hfst : (df.map (fun r => (r.t, f r))).map Prod.fst = df.map (·.t) := by
      rw [List.map_map]
      rfl
    have hplen : (df.map (fun r => (r.t, f r))).length = df.length := List.length_map _ _
    have hd1 : (df.map (fun r => (r.t, f r))).getD (idx - 1) (0, 0)
        = ((df.get ⟨idx - 1, hidx1lt⟩).t, f (df.get ⟨idx - 1, hidx1lt⟩)) := by
      rw [List.getD_eq_get _ _ (by rw [hplen]; omega)]
      simp [List.get_map]
    have hd2 : (df.map (fun r => (r.t, f r))).getD idx (0, 0)
        = ((df.get ⟨idx, hidxlt⟩).t, f (df.get ⟨idx, hidxlt⟩)) := by
      rw [List.getD_eq_get _ _ (by rw [hplen]; omega)]
      simp [List.get_map]
    simp only [interpValue, searchsorted]
    rw [hfst, hplen, ← hc, ← hidx, hd1, hd2]
    ring

/-- Every whole-millisecond grid point over `[ceil(tmin*1000), ceil(tmax*1000))`
lies between `tmin` and `tmax`. -/
theorem grid_bounds (tmin tmax : ℚ) (i : ℕ)
    (hi : i < (⌈tmax * 1000⌉ - ⌈tmin * 1000⌉).toNat) :
    tmin ≤ (0.001 : ℚ) * ((⌈tmin * 1000⌉ + (i : ℤ) : ℤ) : ℚ) ∧
    (0.001 : ℚ) * ((⌈tmin * 1000⌉ + (i : ℤ) : ℤ) : ℚ) ≤ tmax := by
  have h001 : (0.001 : ℚ) = 1 / 1000 := by norm_num
  have hiz : (⌈tmin * 1000⌉ + (i : ℤ)) ≤ ⌈tmax * 1000⌉ - 1 := by omega
  have h1 : tmin * 1000 ≤ ((⌈tmin * 1000⌉ : ℤ) : ℚ) := Int.le_ceil _
  have h2 : ((⌈tmax * 1000⌉ : ℤ) : ℚ) < tmax * 1000 + 1 := Int.ceil_lt_add_one _
  have hcast : ((⌈tmin * 1000⌉ + (i : ℤ) : ℤ) : ℚ)
      = ((⌈tmin * 1000⌉ : ℤ) : ℚ) + (i : ℚ) := by
    push_cast
    ring
  have hile : ((⌈tmin * 1000⌉ : ℤ) : ℚ) + (i : ℚ) ≤ ((⌈tmax * 1000⌉ : ℤ) : ℚ) - 1 := by
    have h3 : ((⌈tmin * 1000⌉ + (i : ℤ) : ℤ) : ℚ) ≤ ((⌈tmax * 1000⌉ - 1 : ℤ) : ℚ) := by
      exact_mod_cast hiz
    push_cast at h3
    linarith
  have hipos : (0 : ℚ) ≤ (i : ℚ) := by positivity
  constructor
  · rw [h001, hcast]
    have hsum : tmin * 1000 ≤ ((⌈tmin * 1000⌉ : ℤ) : ℚ) + (i : ℚ) := by linarith
    have hmul := mul_le_mul_of_nonneg_left hsum (show (0 : ℚ) ≤ 1 / 1000 by norm_num)
    have hfold : (1 / 1000 : ℚ) * (tmin * 1000) = tmin := by ring
    linarith
  · rw [h001, hcast]
    have hsum : ((⌈tmin * 1000⌉ : ℤ) : ℚ) + (i : ℚ) ≤ tmax * 1000 := by linarith
    have hmul := mul_le_mul_of_nonneg_left hsum (show (0 : ℚ) ≤ 1 / 1000 by norm_num)
    have hfold : (1 / 1000 : ℚ) * (tmax * 1000) = tmax := by ring
    linarith

/-- Unfolding of `interpolate` on a well-formed input: no branch fails, and
the result is the millisecond grid mapped through the two interpolants. -/
theorem interpolate_pos (trial : ℤ) (df : List SampleRow) (h2 : ¬ df.length < 2)
    (hsorted : List.Pairwise (fun a b : SampleRow => a.t ≤ b.t) df)
    (hall : (((List.range (⌈seriesMax (df.map (·.t)) * 1000⌉ -
          ⌈seriesMin (df.map (·.t)) * 1000⌉).toNat).map
            (fun (i : ℕ) => ⌈seriesMin (df.map (·.t)) * 1000⌉ + (i : ℤ))).map
          (fun (s : ℤ) => (0.001 : ℚ) * (s : ℚ))).all
        (fun q => decide (seriesMin (df.map (·.t)) ≤ q ∧ q ≤ seriesMax (df.map (·.t))))
        = true) :
    interpolate trial df
      = some ((((List.range (⌈seriesMax (df.map (·.t)) * 1000⌉ -
            ⌈seriesMin (df.map (·.t)) * 1000⌉).toNat).map
              (fun (i : ℕ) => ⌈seriesMin (df.map (·.t)) * 1000⌉ + (i : ℤ))).map
            (fun (s : ℤ) => (0.001 : ℚ) * (s : ℚ))).map
          (fun q => ⟨trial, q, interpValue (df.map (fun r => (r.t, r.x))) q,
            interpValue (df.map (fun r => (r.t, r.y))) q⟩)) := by
  simp only [interpolate]
  rw [if_neg h2, List.Sorted.insertionSort_eq hsorted, if_pos hall]

/-- C1: for every Path with at least 2 samples and strictly increasing
elapsed times, `interpolate` succeeds, its time points are exactly the whole
milliseconds in `[ceil(min_t*1000), ceil(max_t*1000))`, each divided by
1000, the row count is the size of that interval, and each output row is the
piecewise-linear interpolation of x and y against elapsed time independently
(it lies on the segment between two consecutive bracketing samples). -/
theorem interpolate_whole_ms_grid (trial : ℤ) (df : List SampleRow)
    (hn : 2 ≤ df.length) (hmono : df.Chain' (fun a b : SampleRow => a.t < b.t)) :
    ∃ out, interpolate trial df = some out ∧
      out.map (·.t) = msGrid (df.map (·.t)) ∧
      out.length = (⌈seriesMax (df.map (·.t)) * 1000⌉ -
        ⌈seriesMin (df.map (·.t)) * 1000⌉).toNat ∧
      ∀ r ∈ out, r.trial = trial ∧ OnSegment df r.t r.x r.y := by
  haveI : IsTrans SampleRow (fun a b : SampleRow => a.t < b.t) :=
    ⟨fun _ _ _ h1 h2 => lt_trans h1 h2⟩
  have hps : df.Pairwise (fun a b : SampleRow => a.t < b.t) :=
    List.chain'_iff_pairwise.mp hmono
  have hsorted : List.Pairwise (fun a b : SampleRow => a.t ≤ b.t) df :=
    hps.imp fun h => le_of_lt h
  have hts : List.Pairwise (· ≤ ·) (df.map (·.t)) := by
    rw [List.pairwise_map]
    exact hsorted
  have h0 : 0 < (df.map (·.t)).length := by simp; omega
  have hmin_eq : seriesMin (df.map (·.t)) = (df.get ⟨0, by omega⟩).t := by
    rw [seriesMin_sorted (df.map (·.t)) hts h0]
    simp [List.get_map]
  have hmax_eq : seriesMax (df.map (·.t)) = (df.get ⟨df.length - 1, by omega⟩).t := by
    rw [seriesMax_sorted (df.map (·.t)) hts h0]
    simp [List.get_map]
  have hquv : ∀ qq ∈ ((List.range (⌈seriesMax (df.map (·.t)) * 1000⌉ -
      ⌈seriesMin (df.map (·.t)) * 1000⌉).toNat).map
        (fun (i : ℕ) => ⌈seriesMin (df.map (·.t)) * 1000⌉ + (i : ℤ))).map
        (fun (s : ℤ) => (0.001 : ℚ) * (s : ℚ)),
      seriesMin (df.map (·.t)) ≤ qq ∧ qq ≤ seriesMax (df.map (·.t)) := by
    intro qq hqq
    rw [List.mem_map] at hqq
    obtain ⟨s, hs, rfl⟩ := hqq
    rw [List.mem_map] at hs
    obtain ⟨i, hi, rfl⟩ := hs
    rw [List.mem_range] at hi
    exact grid_bounds _ _ i hi
  have hall : (((List.range (⌈seriesMax (df.map (·.t)) * 1000⌉ -
      ⌈seriesMin (df.map (·.t)) * 1000⌉).toNat).map
        (fun (i : ℕ) => ⌈seriesMin (df.map (·.t)) * 1000⌉ + (i : ℤ))).map
        (fun (s : ℤ) => (0.001 : ℚ) * (s : ℚ))).all
      (fun q => decide (seriesMin (df.map (·.t)) ≤ q ∧ q ≤ seriesMax (df.map (·.t))))
      = true := by
    rw [List.all_eq_true]
    intro qq hqq
    exact decide_eq_true (hquv qq hqq)
  have hpos := interpolate_pos trial df (by omega) hsorted hall
  refine ⟨_, hpos, ?_, ?_, ?_⟩
  · rw [msGrid]
    simp only [List.map_map]
    rfl
  · simp
  · intro r hr
    rw [List.mem_map] at hr
    obtain ⟨qq, hqq, rfl⟩ := hr
    refine ⟨rfl, ?_⟩
    have hb := hquv qq hqq
    have hlo : (df.get ⟨0, by omega⟩).t ≤ qq := by
      rw [← hmin_eq]
      exact hb.1
    have hhi : qq ≤ (df.get ⟨df.length - 1, by omega⟩).t := by
      rw [← hmax_eq]
      exact hb.2
    obtain ⟨a, b, hcons, hale, hble, hf⟩ := interpValue_bracket df hps hn qq hlo hhi
    exact ⟨a, b, hcons, hale, hble, hf (fun r => r.x), hf (fun r => r.y)⟩

/-- Witness for C1 at a concrete input: a 2-sample path spanning elapsed
times 0 to 0.8 seconds, whose InterpolatedPath has exactly 800 rows. -/
theorem interpolate_whole_ms_grid_witness :
    (2 ≤ ([⟨0, 0, 0, 0⟩, ⟨0, 4/5, 100, 50⟩] : List SampleRow).length) ∧
    List.Chain' (fun a b : SampleRow => a.t < b.t)
      [⟨0, 0, 0, 0⟩, ⟨0, 4/5, 100, 50⟩] ∧
    ∃ out, interpolate 0 [⟨0, 0, 0, 0⟩, ⟨0, 4/5, 100, 50⟩] = some out ∧
      out.length = 800 := by
  have hn : 2 ≤ ([⟨0, 0, 0, 0⟩, ⟨0, 4/5, 100, 50⟩] : List SampleRow).length := by
    norm_num
  have hch : List.Chain' (fun a b : SampleRow => a.t < b.t)
      [⟨0, 0, 0, 0⟩, ⟨0, 4/5, 100, 50⟩] := by
    norm_num
  obtain ⟨out, h1, _, h3, _⟩ := interpolate_whole_ms_grid 0 _ hn hch
  refine ⟨hn, hch, out, h1, ?_⟩
  rw [h3]
  norm_num [seriesMax, seriesMin]
  rfl

end MouseExp
